import Mathlib

/-!
# Verification of the deadline-propagation and access-logging middleware

This file embeds the Go middleware repository (`jsocol/middleware`) in Lean 4:

* `deadline/config.go` — the functional-options configuration (`Config`,
  `newConfig`, `WithMaxTimeout`, `WithDefaultTimeout`, `WithHeaderName`).
* `deadline/middleware.go` — the inbound (server) stage `Middleware.ServeHTTP`,
  modelled by `serveHTTP`.
* the outbound (client) stage `Transport.RoundTrip`, modelled by
  `roundTripRequest`.
* `logging/middleware.go` — the response-writer wrapper that captures the
  status code, modelled by `stepWriter` / `runWriter`.

Go `time.Time` values are modelled as integers: nanoseconds since
`0001-01-01T00:00:00Z` (the zero `time.Time`), so the Go `Time.IsZero` test becomes
`= 0`, `Time.After` becomes `>`, and `Time.Add` is integer addition.  Durations
are integers (nanoseconds).  The middleware calls `time.Now()` exactly once per
request; that single sample is the explicit `now` parameter of the models.

The standard-library functions `time.Parse(time.RFC3339Nano, ·)` and
`Time.Format(time.RFC3339Nano)` are external collaborators (the Go `time`
package, not part of this repository); they are embedded at the string level by
`timeParse` and `timeFormat`, following the documented and implemented Go
behavior: `Parse` accepts an RFC 3339 timestamp whose fractional seconds are
*optional* (Go additionally accepts a comma as the fraction separator, a one- or
two-digit hour, and does not range-check the numeric zone offset, all inherited
from its generic layout parser), and `Format` prints nanosecond precision with
trailing zeros — and the decimal point itself when the fraction is zero —
removed.  `timeFormat` renders the UTC profile (`Z` suffix); an offset-carrying
rendering of the same instant parses to the same integer, so instant-level
statements are unaffected.
-/

namespace Middleware

/-! ## Definitions: the shallow embedding -/


/-! ## Calendar arithmetic (Go `time` package collaborator) -/

/-- Gregorian leap-year test, as the Go function `isLeap`. -/
def isLeap (y : Nat) : Bool :=
  y % 4 == 0 && (y % 100 != 0 || y % 400 == 0)

/-- Length of month `m` (1–12) in a non-leap year; 0 for out-of-range months. -/
def monthLen (m : Nat) : Nat :=
  match m with
  | 1 => 31 | 2 => 28 | 3 => 31 | 4 => 30 | 5 => 31 | 6 => 30
  | 7 => 31 | 8 => 31 | 9 => 30 | 10 => 31 | 11 => 30 | 12 => 31
  | _ => 0

/-- Days in month `m` of year `y`, as the Go function `daysIn`. -/
def daysInMonth (y m : Nat) : Nat :=
  if m = 2 ∧ isLeap y = true then 29 else monthLen m

/-- Cumulative days before month `m` in a non-leap year (the Go table `daysBefore`). -/
def daysBeforeMonth (m : Nat) : Nat :=
  match m with
  | 1 => 0 | 2 => 31 | 3 => 59 | 4 => 90 | 5 => 120 | 6 => 151
  | 7 => 181 | 8 => 212 | 9 => 243 | 10 => 273 | 11 => 304 | 12 => 334
  | _ => 365

/-- Month containing 0-based day-of-year `d` of a non-leap year. -/
def monthFromYday (d : Nat) : Nat :=
  if d < 31 then 1 else if d < 59 then 2 else if d < 90 then 3
  else if d < 120 then 4 else if d < 151 then 5 else if d < 181 then 6
  else if d < 212 then 7 else if d < 243 then 8 else if d < 273 then 9
  else if d < 304 then 10 else if d < 334 then 11 else 12

/-- Days from `0001-01-01` to `y-01-01`, for `y ≥ 1` (the year count in the Go
function `Date`: 365 days per elapsed year plus the elapsed leap days). -/
def yearDays (y : Nat) : Nat :=
  (y - 1) * 365 + (y - 1) / 4 - (y - 1) / 100 + (y - 1) / 400

/-- 0-based day index (from `0001-01-01`) of the civil date `y-m-d`, `y ≥ 1`. -/
def daysFromCivilN (y m d : Nat) : Nat :=
  yearDays y + daysBeforeMonth m
    + (if isLeap y = true ∧ 3 ≤ m then 1 else 0) + (d - 1)

/-- Signed day index of a civil date, also covering year 0 (which the Go function `Date`
normalizes to a negative absolute time; year 0 is a leap year of 366 days). -/
def daysFromCivil (y m d : Nat) : Int :=
  if y = 0 then
    (daysBeforeMonth m + (if 3 ≤ m then 1 else 0) + (d - 1) : Nat) - 366
  else
    (daysFromCivilN y m d : Int)

/-- Month and day (1-based) of 0-based day-of-year `ry`, as in the Go function `absDate`:
in a leap year, day 59 is February 29 and later days are shifted down before
the non-leap month lookup. -/
def ydayToMD (leap : Bool) (ry : Nat) : Nat × Nat :=
  if leap && ry == 59 then
    (2, 29)
  else
    let d := if leap && 59 < ry then ry - 1 else ry
    let m := monthFromYday d
    (m, d - daysBeforeMonth m + 1)

/-- Year-in-cycle (1–400) and 0-based day-of-year of day `r` (0-based) inside
one 400-year cycle, via the century / 4-year / year unwinding of the Go
function `absDate`. -/
def cycleYearYday (r : Nat) : Nat × Nat :=
  let c := min (r / 36524) 3
  let rc := r - c * 36524
  let q4 := min (rc / 1461) 24
  let rq := rc - q4 * 1461
  let yy := min (rq / 365) 3
  (c * 100 + q4 * 4 + yy + 1, rq - yy * 365)

/-- Civil date of day `r` (0-based) inside one 400-year cycle. -/
def civilInCycle (r : Nat) : Nat × Nat × Nat :=
  let p := cycleYearYday r
  let md := ydayToMD (isLeap p.1) p.2
  (p.1, md.1, md.2)

/-- Civil date `(y, m, d)` of 0-based day `D` counted from `0001-01-01`
(the Go function `absDate`, decomposed into 400-year cycles of 146097 days). -/
def civilFromDays (D : Nat) : Nat × Nat × Nat :=
  let p := civilInCycle (D % 146097)
  (400 * (D / 146097) + p.1, p.2.1, p.2.2)

/-- Per-year correctness of `ydayToMD`: the resulting month and day are in
range and map back to the day-of-year, for both leap and non-leap years. -/
abbrev ydayOK (leap : Bool) (ry : Nat) : Prop :=
  1 ≤ (ydayToMD leap ry).1 ∧ (ydayToMD leap ry).1 ≤ 12 ∧
  1 ≤ (ydayToMD leap ry).2 ∧
  (ydayToMD leap ry).2 ≤
    (if (ydayToMD leap ry).1 = 2 ∧ leap = true then 29
     else monthLen (ydayToMD leap ry).1) ∧
  daysBeforeMonth (ydayToMD leap ry).1
    + (if leap = true ∧ 3 ≤ (ydayToMD leap ry).1 then 1 else 0)
    + ((ydayToMD leap ry).2 - 1) = ry

def digitVal (c : Char) : Nat := c.toNat - 48

def isDigitC (c : Char) : Bool := 48 ≤ c.toNat && c.toNat ≤ 57

/-- Two fixed decimal digits (the Go `getnum` with `fixed = true`). -/
def getnum2 (cs : List Char) : Option (Nat × List Char) :=
  match cs with
  | a :: b :: rest =>
    if isDigitC a && isDigitC b then
      some (digitVal a * 10 + digitVal b, rest)
    else none
  | _ => none

/-- The Go `getnum` with `fixed = false`, used only for the hour in the
`RFC3339Nano` layout: one digit when the next character is not a digit. -/
def getnumFlex (cs : List Char) : Option (Nat × List Char) :=
  match cs with
  | a :: b :: rest =>
    if isDigitC a then
      if isDigitC b then some (digitVal a * 10 + digitVal b, rest)
      else some (digitVal a, b :: rest)
    else none
  | [a] => if isDigitC a then some (digitVal a, []) else none
  | [] => none

/-- Four fixed decimal digits (the year). -/
def getnum4 (cs : List Char) : Option (Nat × List Char) :=
  match cs with
  | a :: b :: c :: d :: rest =>
    if isDigitC a && isDigitC b && isDigitC c && isDigitC d then
      some (((digitVal a * 10 + digitVal b) * 10 + digitVal c) * 10
        + digitVal d, rest)
    else none
  | _ => none

def expectChar (x : Char) (cs : List Char) : Option (List Char) :=
  match cs with
  | c :: rest => if c = x then some rest else none
  | [] => none

def digitsVal (ds : List Char) : Nat :=
  ds.foldl (fun a c => a * 10 + digitVal c) 0

/-- Fractional-second value in nanoseconds: the Go `parseNanoseconds` scales
the first (at most 9) digits and ignores any further digits. -/
def fracValue (ds : List Char) : Nat :=
  digitsVal (ds.take 9) * 10 ^ (9 - (ds.take 9).length)

/-- Optional fractional seconds, consumed only when a `.` or `,` is directly
followed by a digit (the Go `stdFracSecond9` case). -/
def parseFrac (cs : List Char) : Nat × List Char :=
  match cs with
  | a :: b :: rest =>
    if (a == '.' || a == ',') && isDigitC b then
      (fracValue ((b :: rest).takeWhile isDigitC),
        (b :: rest).dropWhile isDigitC)
    else (0, a :: b :: rest)
  | cs => (0, cs)

/-- Time-zone suffix: `Z` or `±hh:mm` (the generic Go layout parser does not
range-check the offset digits); the offset in seconds.  The zone must end the
input — Go rejects trailing text. -/
def parseZone (cs : List Char) : Option Int :=
  match cs with
  | ['Z'] => some 0
  | [sgn, h1, h2, colon, m1, m2] =>
    if (sgn == '+' || sgn == '-') && colon == ':'
        && isDigitC h1 && isDigitC h2 && isDigitC m1 && isDigitC m2 then
      let off : Int := ((digitVal h1 * 10 + digitVal h2) * 60
        + (digitVal m1 * 10 + digitVal m2)) * 60
      some (if sgn == '-' then -off else off)
    else none
  | _ => none

/-- Embedding of the Go `time.Parse(time.RFC3339Nano, ·)` on a character list:
the union of the RFC 3339 fast path and the generic layout parser it falls
back to (optional fraction after `.` or `,`, one- or two-digit hour, unchecked
zone offset digits).  Returns the instant in nanoseconds since
`0001-01-01T00:00:00Z`, or `none` for a string Go rejects. -/
def parseRFC3339 (cs : List Char) : Option Int :=
  match getnum4 cs with
  | none => none
  | some (year, cs) =>
  match expectChar '-' cs with
  | none => none
  | some cs =>
  match getnum2 cs with
  | none => none
  | some (month, cs) =>
  match expectChar '-' cs with
  | none => none
  | some cs =>
  match getnum2 cs with
  | none => none
  | some (day, cs) =>
  match expectChar 'T' cs with
  | none => none
  | some cs =>
  match getnumFlex cs with
  | none => none
  | some (hour, cs) =>
  match expectChar ':' cs with
  | none => none
  | some cs =>
  match getnum2 cs with
  | none => none
  | some (minute, cs) =>
  match expectChar ':' cs with
  | none => none
  | some cs =>
  match getnum2 cs with
  | none => none
  | some (sec, cs) =>
  if month < 1 ∨ 12 < month ∨ day < 1 ∨ daysInMonth year month < day
      ∨ 23 < hour ∨ 59 < minute ∨ 59 < sec then
    none
  else
    let fr := parseFrac cs
    match parseZone fr.2 with
    | none => none
    | some offset =>
      some ((daysFromCivil year month day * 86400
        + (hour * 3600 + minute * 60 + sec : Nat) - offset) * 1000000000
        + fr.1)

/-- The `d`-digit zero-padded decimal rendering of `n < 10^d`. -/
def padDigits : Nat → Nat → List Char
  | 0, _ => []
  | d + 1, n => padDigits d (n / 10) ++ [Nat.digitChar (n % 10)]

/-- Digits of the `d`-digit decimal fraction with value `ns`, with trailing
zeros removed (the Go `fmtFrac`). -/
def fracDigits : Nat → Nat → List Char
  | _, 0 => []
  | ns, d + 1 =>
    if ns % 10 = 0 then fracDigits (ns / 10) d
    else padDigits (d + 1) ns

/-- Character rendering of the Go `Time.Format(time.RFC3339Nano)` of a
non-negative instant (nanoseconds since `0001-01-01T00:00:00Z`), in the UTC
profile: trailing zeros of the fraction are dropped, and the decimal point
itself when the fraction is zero. -/
def formatChars (tn : Nat) : List Char :=
  let s := tn / 1000000000
  let ns := tn % 1000000000
  let sod := s % 86400
  let p := civilFromDays (s / 86400)
  padDigits 4 p.1 ++ '-' :: padDigits 2 p.2.1 ++ '-' :: padDigits 2 p.2.2
    ++ 'T' :: padDigits 2 (sod / 3600) ++ ':' :: padDigits 2 (sod % 3600 / 60)
    ++ ':' :: padDigits 2 (sod % 60)
    ++ (if ns = 0 then [] else '.' :: fracDigits ns 9) ++ ['Z']

/-- The Go `time.Parse(time.RFC3339Nano, ·)`, at the `String` level. -/
def timeParse (s : String) : Option Int := parseRFC3339 s.toList

/-- The Go `Time.Format(time.RFC3339Nano)`, at the `String` level. -/
def timeFormat (t : Int) : String := String.mk (formatChars t.toNat)

def DefaultHeaderName : String := "Deadline"

/-- Model of `config`: the three fields shared by both stages; durations are
nanosecond counts (`time.Duration`). -/
structure Config where
  headerName : String
  defaultTimeout : Int
  maxTimeout : Int
deriving DecidableEq

/-- Model of `newConfig()`. -/
def newConfig : Config :=
  { headerName := DefaultHeaderName, defaultTimeout := 0, maxTimeout := 0 }

/-- Model of `WithMaxTimeout`. -/
def WithMaxTimeout (t : Int) : Config → Config :=
  fun c => { c with maxTimeout := t }

/-- Model of `WithDefaultTimeout`. -/
def WithDefaultTimeout (t : Int) : Config → Config :=
  fun c => { c with defaultTimeout := t }

/-- Model of `WithHeaderName`: sets the name verbatim (no emptiness check). -/
def WithHeaderName (name : String) : Config → Config :=
  fun c => { c with headerName := name }

/-- The configuration `Wrap` / `WrapClient` build: the option functions
applied in order to a fresh `newConfig()`. -/
def applyOptions (opts : List (Config → Config)) : Config :=
  opts.foldl (fun c o => o c) newConfig

/-- The slice of an `*http.Request` the deadline stages read and write:
the context deadline (`r.Context().Deadline()`; `none` when `ok` is false)
and the header collection. -/
structure Request where
  ctxDeadline : Option Int
  headers : List (String × String)
deriving DecidableEq

/-- Model of `http.Header.Get`: first value for the key, `""` when absent (the keys
used here are already in canonical MIME form). -/
def headerGet (hs : List (String × String)) (name : String) : String :=
  match hs.find? (fun p => p.1 == name) with
  | some p => p.2
  | none => ""

/-- Model of `http.Header.Add` (canonical key). -/
def headerAdd (hs : List (String × String)) (name value : String) :
    List (String × String) :=
  hs ++ [(name, value)]

/-- The header-sourced deadline of `Middleware.ServeHTTP`: the local Go
`deadline` variable after the header block — it stays at the zero `time.Time`
(here `0`) when the header is absent or fails to parse. -/
def headerDeadline (cfg : Config) (r : Request) : Int :=
  let incomingDeadline := headerGet r.headers cfg.headerName
  if incomingDeadline ≠ "" then
    match timeParse incomingDeadline with
    | some dl => dl
    | none => 0
  else 0

/-- Model of `Middleware.ServeHTTP` (`deadline/middleware.go`): the request delegated
to the wrapped handler, given the single `time.Now()` sample `now`.  A
context that already has a deadline short-circuits everything; otherwise the
header deadline, then the default timeout, then the max clamp are applied in
the order of the source, and a non-zero result is installed as the context
deadline (`context.WithDeadline` on a parent with no deadline). -/
def serveHTTP (cfg : Config) (now : Int) (r : Request) : Request :=
  match r.ctxDeadline with
  | some _ => r
  | none =>
    let deadline0 := headerDeadline cfg r
    let deadline1 :=
      if deadline0 = 0 ∧ cfg.defaultTimeout ≠ 0 then now + cfg.defaultTimeout
      else deadline0
    if deadline1 ≠ 0 then
      let deadline2 :=
        if cfg.maxTimeout ≠ 0 then
          let maxDeadline := now + cfg.maxTimeout
          if deadline1 > maxDeadline then maxDeadline else deadline1
        else deadline1
      { r with ctxDeadline := some deadline2 }
    else r

/-- The request decoration of `Transport.RoundTrip`: the request handed to the
wrapped `RoundTripper`, given the single `time.Now()` sample `now`.  The
context deadline is preferred; otherwise a non-zero default applies; a
non-zero deadline is clamped to `now + maxTimeout` and serialized into the
header. -/
def roundTripRequest (cfg : Config) (now : Int) (r : Request) : Request :=
  let deadline0 :=
    match r.ctxDeadline with
    | some dl => dl
    | none => if cfg.defaultTimeout ≠ 0 then now + cfg.defaultTimeout else 0
  if deadline0 ≠ 0 then
    let deadline1 :=
      if cfg.maxTimeout ≠ 0 then
        let maxDeadline := now + cfg.maxTimeout
        if deadline0 > maxDeadline then maxDeadline else deadline0
      else deadline0
    { r with
        headers := headerAdd r.headers cfg.headerName (timeFormat deadline1) }
  else r

/-- Model of `wrappedWriter`: the captured status (`0` = not yet written). -/
structure WrappedWriter where
  status : Nat

/-- One call the wrapped handler makes on the response writer. -/
inductive WriterEvent where
  | writeHeader (code : Nat)
  | write (data : String)
deriving DecidableEq

/-- Model of the writer calls: `wrappedWriter.WriteHeader` records the code; `wrappedWriter.Write`
records `http.StatusOK` (200) first when no status has been set yet. -/
def stepWriter (w : WrappedWriter) : WriterEvent → WrappedWriter
  | .writeHeader code => { status := code }
  | .write _ => if w.status = 0 then { status := 200 } else w

/-- The wrapper state after the writer calls of the handler, starting from the
fresh wrapper `Middleware.ServeHTTP` creates (`status` zero-valued). -/
def runWriter (evs : List WriterEvent) : WrappedWriter :=
  evs.foldl stepWriter { status := 0 }

/-- An option as written at a `Wrap` / `WrapClient` call site. -/
inductive OptSpec where
  | maxT (t : Int)
  | defaultT (t : Int)
  | headerN (name : String)

/-- The option function an `OptSpec` denotes. -/
def OptSpec.interp : OptSpec → Config → Config
  | .maxT t => WithMaxTimeout t
  | .defaultT t => WithDefaultTimeout t
  | .headerN n => WithHeaderName n

/-- The name set by the last `WithHeaderName` among the options, if any. -/
def lastHeaderName : List OptSpec → Option String
  | [] => none
  | o :: rest =>
    match lastHeaderName rest with
    | some n => some n
    | none =>
      match o with
      | .headerN n => some n
      | _ => none

/-- A sample configuration: only `maxTimeout` set (to 5s). -/
def cfgOnlyMax : Config :=
  { headerName := "Deadline", defaultTimeout := 0, maxTimeout := 5000000000 }

/-- A sample request with an unparseable deadline header. -/
def reqBadHeader : Request :=
  { ctxDeadline := none, headers := [("Deadline", "not-a-timestamp")] }

/-- A sample configuration with a three-second default and one-second max. -/
def cfgDef3Max1 : Config :=
  { headerName := "Deadline", defaultTimeout := 3000000000,
    maxTimeout := 1000000000 }

/-- A sample client configuration with only a default timeout (7s). -/
def cfgOnlyDefault : Config :=
  { headerName := "Deadline", defaultTimeout := 7000000000, maxTimeout := 0 }

/-- The client configuration of the spec scenario: `maxTimeout = 2s`. -/
def cfgMax2 : Config :=
  { headerName := "Deadline", defaultTimeout := 0, maxTimeout := 2000000000 }

/-- A request carrying a second-precision RFC 3339 deadline header. -/
def req2030sec : Request :=
  { ctxDeadline := none, headers := [("Deadline", "2030-01-01T00:00:00Z")] }

/-- A request with no headers. -/
def reqEmpty : Request := { ctxDeadline := none, headers := [] }

/-! ## Theorems -/

theorem isLeap_iff (y : Nat) :
    isLeap y = true ↔ (y % 4 = 0 ∧ (y % 100 ≠ 0 ∨ y % 400 = 0)) := by
  simp [isLeap]

set_option maxRecDepth 8000 in
theorem ydayToMD_spec : ∀ ry < 366, ydayOK true ry ∧ (ry < 365 → ydayOK false ry) := by
  decide

theorem yearDays_decomp (c q4 yy : Nat) (hc : c ≤ 3) (hq : q4 ≤ 24)
    (hy : yy ≤ 3) :
    yearDays (c * 100 + q4 * 4 + yy + 1) = c * 36524 + q4 * 1461 + yy * 365 := by
  unfold yearDays
  omega

theorem isLeap_cycle (c q4 yy : Nat) (hc : c ≤ 3) (hq : q4 ≤ 24) (hy : yy ≤ 3) :
    isLeap (c * 100 + q4 * 4 + yy + 1) = true ↔
      (yy = 3 ∧ (q4 ≠ 24 ∨ c = 3)) := by
  rw [isLeap_iff]
  omega

theorem cycle_core (r c rc q4 rq yy ry : Nat) (hr : r < 146097)
    (hc : c = min (r / 36524) 3) (hrc : rc = r - c * 36524)
    (hq : q4 = min (rc / 1461) 24) (hrq : rq = rc - q4 * 1461)
    (hy : yy = min (rq / 365) 3) (hry : ry = rq - yy * 365) :
    1 ≤ c * 100 + q4 * 4 + yy + 1 ∧ c * 100 + q4 * 4 + yy + 1 ≤ 400 ∧
    ry < 366 ∧
    (isLeap (c * 100 + q4 * 4 + yy + 1) = false → ry < 365) ∧
    yearDays (c * 100 + q4 * 4 + yy + 1) + ry = r ∧
    (r ≤ 145730 → c * 100 + q4 * 4 + yy + 1 ≤ 399) := by
  have f1 : c ≤ 3 ∧ c * 36524 ≤ r ∧ rc ≤ 36524 ∧ (c ≠ 3 → rc ≤ 36523) := by
    omega
  clear hc
  have f2 : q4 ≤ 24 ∧ q4 * 1461 ≤ rc ∧ rq ≤ 1460 := by
    omega
  clear hq
  have f3 : yy ≤ 3 ∧ yy * 365 ≤ rq ∧ (yy = 3 ∨ ry ≤ 364) ∧
      (rq ≤ 1459 → ry ≤ 364) := by
    omega
  clear hy
  rw [yearDays_decomp c q4 yy f1.1 f2.1 f3.1]
  have hl := isLeap_cycle c q4 yy f1.1 f2.1 f3.1
  cases hb : isLeap (c * 100 + q4 * 4 + yy + 1) <;> rw [hb] at hl <;>
    simp only [Bool.false_eq_true, false_iff, true_iff, not_and, not_or,
      Decidable.not_not, Bool.true_eq_false, false_implies, true_implies,
      eq_self_iff_true, forall_const, true_and, and_true, ne_eq] at hl ⊢ <;>
    omega

theorem cycleYearYday_spec (r yo ry : Nat) (hr : r < 146097)
    (h : cycleYearYday r = (yo, ry)) :
    1 ≤ yo ∧ yo ≤ 400 ∧ ry < 366 ∧
    (isLeap yo = false → ry < 365) ∧
    yearDays yo + ry = r ∧
    (r ≤ 145730 → yo ≤ 399) := by
  have hcore := cycle_core r _ _ _ _ _ _ hr rfl rfl rfl rfl rfl rfl
  simp only [cycleYearYday, Prod.mk.injEq] at h
  obtain ⟨e1, e2⟩ := h
  subst e1 e2
  exact hcore

theorem isLeap_add_400 (q y : Nat) : isLeap (400 * q + y) = isLeap y := by
  simp only [isLeap]
  have e4 : (400 * q + y) % 4 = y % 4 := by omega
  have e100 : (400 * q + y) % 100 = y % 100 := by omega
  have e400 : (400 * q + y) % 400 = y % 400 := by omega
  rw [e4, e100, e400]

theorem yearDays_add_400 (q y : Nat) (hy : 1 ≤ y) :
    yearDays (400 * q + y) = 146097 * q + yearDays y := by
  unfold yearDays
  omega

theorem civilInCycle_inv (r yo m d : Nat) (hr : r < 146097)
    (h : civilInCycle r = (yo, m, d)) :
    1 ≤ yo ∧ yo ≤ 400 ∧ 1 ≤ m ∧ m ≤ 12 ∧ 1 ≤ d ∧ d ≤ daysInMonth yo m ∧
    daysFromCivilN yo m d = r ∧ (r ≤ 145730 → yo ≤ 399) := by
  obtain ⟨⟨yo', ry⟩, hp⟩ : ∃ p, cycleYearYday r = p := ⟨_, rfl⟩
  have hs := cycleYearYday_spec r yo' ry hr hp
  have hmd : civilInCycle r
      = (yo', (ydayToMD (isLeap yo') ry).1, (ydayToMD (isLeap yo') ry).2) := by
    simp only [civilInCycle, hp]
  rw [h] at hmd
  injection hmd with ey hrest
  injection hrest with em ed
  subst ey em ed
  have hok : ydayOK (isLeap yo) ry := by
    cases hb : isLeap yo
    · exact (ydayToMD_spec ry hs.2.2.1).2 (hs.2.2.2.1 hb)
    · exact (ydayToMD_spec ry hs.2.2.1).1
  obtain ⟨o1, o2, o3, o4, o5⟩ := hok
  refine ⟨hs.1, hs.2.1, o1, o2, o3, ?_, ?_, hs.2.2.2.2.2⟩
  · simpa only [daysInMonth] using o4
  · simp only [daysFromCivilN]
    have hyd := hs.2.2.2.2.1
    generalize (if isLeap yo = true ∧ 3 ≤ (ydayToMD (isLeap yo) ry).1
      then 1 else 0) = adj at o5 ⊢
    omega

theorem civilFromDays_inv (D y m d : Nat) (hD : D ≤ 3652058)
    (h : civilFromDays D = (y, m, d)) :
    1 ≤ y ∧ y ≤ 9999 ∧ 1 ≤ m ∧ m ≤ 12 ∧ 1 ≤ d ∧ d ≤ daysInMonth y m ∧
    daysFromCivilN y m d = D := by
  obtain ⟨⟨yo, m', d'⟩, hp⟩ : ∃ p, civilInCycle (D % 146097) = p := ⟨_, rfl⟩
  have hr : D % 146097 < 146097 := Nat.mod_lt _ (by omega)
  have hs := civilInCycle_inv (D % 146097) yo m' d' hr hp
  have hD' : civilFromDays D = (400 * (D / 146097) + yo, m', d') := by
    simp only [civilFromDays, hp]
  rw [h] at hD'
  injection hD' with ey hrest
  injection hrest with em ed
  subst ey em ed
  obtain ⟨s1, s2, s3, s4, s5, s6, s7, s8⟩ := hs
  have hy9999 : 400 * (D / 146097) + yo ≤ 9999 := by
    rcases Nat.lt_or_ge (D / 146097) 24 with hlt | hge
    · omega
    · have hq24 : D / 146097 = 24 := by omega
      have hrem : D % 146097 ≤ 145730 := by omega
      have := s8 hrem
      omega
  refine ⟨by omega, hy9999, s3, s4, s5, ?_, ?_⟩
  · have hdm : daysInMonth (400 * (D / 146097) + yo) m = daysInMonth yo m := by
      simp only [daysInMonth, isLeap_add_400]
    rw [hdm]
    exact s6
  · simp only [daysFromCivilN, isLeap_add_400,
      yearDays_add_400 (D / 146097) yo s1]
    simp only [daysFromCivilN] at s7
    generalize (if isLeap yo = true ∧ 3 ≤ m then 1 else 0) = adj at s7 ⊢
    omega

theorem digitVal_digitChar : ∀ n < 10,
    digitVal (Nat.digitChar n) = n ∧ isDigitC (Nat.digitChar n) = true := by
  decide

theorem digitsVal_append (xs : List Char) (c : Char) :
    digitsVal (xs ++ [c]) = digitsVal xs * 10 + digitVal c := by
  simp [digitsVal, List.foldl_append]

theorem padDigits_spec (d : Nat) : ∀ n < 10 ^ d,
    (padDigits d n).length = d ∧ (∀ c ∈ padDigits d n, isDigitC c = true) ∧
    digitsVal (padDigits d n) = n := by
  induction d with
  | zero =>
    intro n hn
    have hz : n = 0 := by omega
    subst hz
    simp [padDigits, digitsVal]
  | succ d ih =>
    intro n hn
    have hdiv : n / 10 < 10 ^ d := by
      have h10 : (10 : Nat) ^ (d + 1) = 10 ^ d * 10 := pow_succ 10 d
      omega
    obtain ⟨l1, l2, l3⟩ := ih (n / 10) hdiv
    have hd := digitVal_digitChar (n % 10) (by omega)
    refine ⟨?_, ?_, ?_⟩
    · simp [padDigits, l1]
    · intro c hc
      simp only [padDigits, List.mem_append, List.mem_singleton] at hc
      rcases hc with hc | hc
      · exact l2 c hc
      · subst hc
        exact hd.2
    · rw [padDigits, digitsVal_append, l3, hd.1]
      omega

theorem getnum2_pad (n : Nat) (rest : List Char) (hn : n < 100) :
    getnum2 (padDigits 2 n ++ rest) = some (n, rest) := by
  have h1 := digitVal_digitChar (n / 10 % 10) (by omega)
  have h2 := digitVal_digitChar (n % 10) (by omega)
  simp only [padDigits, List.nil_append, List.cons_append, List.append_assoc,
    List.singleton_append, getnum2, h1.2, h2.2, Bool.and_self, if_true, h1.1,
    h2.1, Option.some.injEq, Prod.mk.injEq]
  exact ⟨by omega, trivial⟩

theorem getnumFlex_pad (n : Nat) (rest : List Char) (hn : n < 100) :
    getnumFlex (padDigits 2 n ++ rest) = some (n, rest) := by
  have h1 := digitVal_digitChar (n / 10 % 10) (by omega)
  have h2 := digitVal_digitChar (n % 10) (by omega)
  simp only [padDigits, List.nil_append, List.cons_append, List.append_assoc,
    List.singleton_append, getnumFlex, h1.2, h2.2, if_true, h1.1, h2.1,
    Option.some.injEq, Prod.mk.injEq]
  exact ⟨by omega, trivial⟩

theorem getnum4_pad (n : Nat) (rest : List Char) (hn : n < 10000) :
    getnum4 (padDigits 4 n ++ rest) = some (n, rest) := by
  have h1 := digitVal_digitChar (n / 10 / 10 / 10 % 10) (by omega)
  have h2 := digitVal_digitChar (n / 10 / 10 % 10) (by omega)
  have h3 := digitVal_digitChar (n / 10 % 10) (by omega)
  have h4 := digitVal_digitChar (n % 10) (by omega)
  simp only [padDigits, List.nil_append, List.cons_append, List.append_assoc,
    List.singleton_append, getnum4, h1.2, h2.2, h3.2, h4.2, Bool.and_self,
    if_true, h1.1, h2.1, h3.1, h4.1, Option.some.injEq, Prod.mk.injEq]
  exact ⟨by omega, trivial⟩

theorem expectChar_cons (x : Char) (rest : List Char) :
    expectChar x (x :: rest) = some rest := by
  simp [expectChar]

theorem fracDigits_spec (d : Nat) : ∀ ns < 10 ^ d,
    (fracDigits ns d).length ≤ d ∧
    (∀ c ∈ fracDigits ns d, isDigitC c = true) ∧
    digitsVal (fracDigits ns d) * 10 ^ (d - (fracDigits ns d).length) = ns ∧
    (ns ≠ 0 → fracDigits ns d ≠ []) := by
  induction d with
  | zero =>
    intro ns hns
    have hz : ns = 0 := by omega
    subst hz
    simp [fracDigits, digitsVal]
  | succ d ih =>
    intro ns hns
    by_cases h10 : ns % 10 = 0
    · have hdiv : ns / 10 < 10 ^ d := by
        have hp : (10 : Nat) ^ (d + 1) = 10 ^ d * 10 := pow_succ 10 d
        omega
      obtain ⟨l1, l2, l3, l4⟩ := ih (ns / 10) hdiv
      have heq : fracDigits ns (d + 1) = fracDigits (ns / 10) d := by
        simp [fracDigits, h10]
      rw [heq]
      refine ⟨by omega, l2, ?_, ?_⟩
      · have hexp : d + 1 - (fracDigits (ns / 10) d).length
            = (d - (fracDigits (ns / 10) d).length) + 1 := by omega
        rw [hexp, pow_succ, ← mul_assoc, l3]
        omega
      · intro hns0
        exact l4 (by omega)
    · have heq : fracDigits ns (d + 1) = padDigits (d + 1) ns := by
        simp [fracDigits, h10]
      obtain ⟨p1, p2, p3⟩ := padDigits_spec (d + 1) ns hns
      rw [heq]
      refine ⟨by omega, p2, ?_, ?_⟩
      · rw [p1]
        simp [p3]
      · intro h0 hemp
        rw [hemp] at p1
        simp only [List.length_nil] at p1
        omega

theorem takeWhile_digits_append (ds : List Char)
    (h : ∀ c ∈ ds, isDigitC c = true) :
    (ds ++ ['Z']).takeWhile isDigitC = ds ∧
    (ds ++ ['Z']).dropWhile isDigitC = ['Z'] := by
  induction ds with
  | nil => exact ⟨by decide, by decide⟩
  | cons a ds ih =>
    have ha : isDigitC a = true := h a (by simp)
    have ih' := ih (fun c hc => h c (by simp [hc]))
    simp [List.takeWhile_cons, List.dropWhile_cons, ha, ih'.1, ih'.2]

theorem parseFrac_format (ns : Nat) (hns : ns < 1000000000) :
    parseFrac ((if ns = 0 then [] else '.' :: fracDigits ns 9) ++ ['Z'])
      = (ns, ['Z']) := by
  by_cases h : ns = 0
  · subst h
    rfl
  · rw [if_neg h]
    have h9 : ns < 10 ^ 9 := by norm_num; omega
    obtain ⟨f1, f2, f3, f4⟩ := fracDigits_spec 9 ns h9
    obtain ⟨b, ds, hcons⟩ := List.exists_cons_of_ne_nil (f4 h)
    rw [hcons] at f1 f2 f3 ⊢
    have hb : isDigitC b = true := f2 b (by simp)
    have htw := takeWhile_digits_append (b :: ds) f2
    simp only [List.cons_append, parseFrac, hb, Bool.and_true, if_true,
      beq_self_eq_true, Bool.true_or, List.cons_append] at htw ⊢
    rw [htw.1, htw.2]
    have hlen : (b :: ds).length ≤ 9 := f1
    have htake : (b :: ds).take 9 = b :: ds := List.take_of_length_le hlen
    simp only [fracValue, htake, Prod.mk.injEq, and_true]
    exact f3

theorem monthLen_le (m : Nat) : monthLen m ≤ 31 := by
  unfold monthLen
  split <;> omega

theorem daysInMonth_le (y m : Nat) : daysInMonth y m ≤ 31 := by
  unfold daysInMonth
  split
  · omega
  · exact monthLen_le m

theorem parse_format_nat (tn : Nat) (hub : tn < 315537897600000000000) :
    parseRFC3339 (formatChars tn) = some (tn : Int) := by
  obtain ⟨s, hs⟩ : ∃ x, tn / 1000000000 = x := ⟨_, rfl⟩
  obtain ⟨ns, hnseq⟩ : ∃ x, tn % 1000000000 = x := ⟨_, rfl⟩
  obtain ⟨D, hDeq⟩ : ∃ x, s / 86400 = x := ⟨_, rfl⟩
  obtain ⟨sod, hsodeq⟩ : ∃ x, s % 86400 = x := ⟨_, rfl⟩
  obtain ⟨⟨y, m, d⟩, hp⟩ : ∃ p, civilFromDays D = p := ⟨_, rfl⟩
  have hDle : D ≤ 3652058 := by omega
  obtain ⟨g1, g2, g3, g4, g5, g6, g7⟩ := civilFromDays_inv D y m d hDle hp
  have hd31 : d ≤ 31 := le_trans g6 (daysInMonth_le y m)
  have hsod : sod < 86400 := by omega
  have hnslt : ns < 1000000000 := by omega
  have hfmt : formatChars tn
      = padDigits 4 y ++ '-' :: padDigits 2 m ++ '-' :: padDigits 2 d
        ++ 'T' :: padDigits 2 (sod / 3600)
        ++ ':' :: padDigits 2 (sod % 3600 / 60)
        ++ ':' :: padDigits 2 (sod % 60)
        ++ (if ns = 0 then [] else '.' :: fracDigits ns 9) ++ ['Z'] := by
    simp only [formatChars, hs, hnseq, hDeq, hsodeq, hp]
  have b1 : y < 10000 := by omega
  have b2 : m < 100 := by omega
  have b3 : d < 100 := by omega
  have b4 : sod / 3600 < 100 := by omega
  have b5 : sod % 3600 / 60 < 100 := by omega
  have b6 : sod % 60 < 100 := by omega
  have hcond : ¬(m < 1 ∨ 12 < m ∨ d < 1 ∨ daysInMonth y m < d
      ∨ 23 < sod / 3600 ∨ 59 < sod % 3600 / 60 ∨ 59 < sod % 60) := by
    simp only [not_or, not_lt]
    exact ⟨g3, g4, g5, g6, by omega, by omega, by omega⟩
  rw [hfmt]
  simp only [List.append_assoc, List.cons_append, parseRFC3339, getnum4_pad,
    getnum2_pad, getnumFlex_pad, expectChar_cons, b1, b2, b3, b4, b5, b6,
    hcond, if_false, parseFrac_format ns hnslt, parseZone]
  have hciv : daysFromCivil y m d = (D : Int) := by
    unfold daysFromCivil
    rw [if_neg (by omega)]
    exact_mod_cast congrArg (Nat.cast : Nat → Int) g7
  rw [hciv]
  simp only [Option.some.injEq]
  omega

/-- Round trip of the shared wire format: parsing a formatted instant
recovers it exactly, for instants between year 1 and year 9999 (the range
the four-digit-year format covers). -/
theorem timeParse_timeFormat (t : Int) (h0 : 0 ≤ t)
    (hub : t < 315537897600000000000) :
    timeParse (timeFormat t) = some t := by
  have htn : ((t.toNat : Int)) = t := Int.toNat_of_nonneg h0
  have hub' : t.toNat < 315537897600000000000 := by omega
  have := parse_format_nat t.toNat hub'
  calc timeParse (timeFormat t) = parseRFC3339 (formatChars t.toNat) := rfl
    _ = some ((t.toNat : Int)) := this
    _ = some t := by rw [htn]

/-- C2: when the context of the request already carries a deadline, the server
stage is a no-op — it installs or replaces nothing (for any header value,
default, or max) and delegates the original request unchanged — and applying
the stage a second time (any configuration, any later `now`) changes
nothing. -/
theorem c2_server_noop (cfg cfg2 : Config) (now now2 : Int) (r : Request)
    (d : Int) (hctx : r.ctxDeadline = some d) :
    serveHTTP cfg now r = r
      ∧ serveHTTP cfg2 now2 (serveHTTP cfg now r) = serveHTTP cfg now r := by
  have h1 : serveHTTP cfg now r = r := by
    simp [serveHTTP, hctx]
  rw [h1]
  exact ⟨rfl, h1 ▸ by simp [serveHTTP, hctx]⟩

/-- C2 witness. -/
theorem c2_server_noop_witness :
    serveHTTP newConfig 7 { ctxDeadline := some 55, headers := [] }
        = { ctxDeadline := some 55, headers := [] }
      ∧ serveHTTP newConfig 9
            (serveHTTP newConfig 7 { ctxDeadline := some 55, headers := [] })
        = serveHTTP newConfig 7 { ctxDeadline := some 55, headers := [] } :=
  c2_server_noop newConfig newConfig 7 9
    { ctxDeadline := some 55, headers := [] } 55 rfl

/-- C4 (counterexample): configuring the header name as the empty string is
kept verbatim — the header name of the resulting configuration is empty, not the
default. -/
theorem c4_counterexample :
    (applyOptions [WithHeaderName ("")]).headerName = ""
      ∧ ("" : String) ≠ DefaultHeaderName := by
  exact ⟨rfl, by decide⟩

theorem foldl_headerName (opts : List OptSpec) (c : Config) :
    ((opts.map OptSpec.interp).foldl (fun c o => o c) c).headerName
      = match lastHeaderName opts with
        | some n => n
        | none => c.headerName := by
  induction opts generalizing c with
  | nil => rfl
  | cons o rest ih =>
    have hstep : (OptSpec.interp o c).headerName
        = match o with
          | .headerN n => n
          | _ => c.headerName := by
      cases o <;> rfl
    simp only [List.map_cons, List.foldl_cons, ih (OptSpec.interp o c), hstep]
    cases hrest : lastHeaderName rest <;> cases o <;>
      simp [lastHeaderName, hrest]

/-- C4 (amended): the header name defaults to `"Deadline"` and is otherwise
exactly the argument of the last `WithHeaderName` applied, verbatim — there
is no fallback for an empty configured name. -/
theorem c4_amended (opts : List OptSpec) :
    (applyOptions (opts.map OptSpec.interp)).headerName
      = (lastHeaderName opts).getD DefaultHeaderName := by
  unfold applyOptions
  rw [foldl_headerName opts newConfig]
  cases h : lastHeaderName opts <;> rfl

theorem runWriter_stays_200 (evs : List WriterEvent) (w : WrappedWriter)
    (hw : ∀ e ∈ evs, ∀ c : Nat, e ≠ WriterEvent.writeHeader c)
    (hs : w.status = 200) :
    (evs.foldl stepWriter w).status = 200 := by
  induction evs generalizing w with
  | nil => exact hs
  | cons e rest ih =>
    have hstep : (stepWriter w e).status = 200 := by
      cases e with
      | writeHeader c => exact absurd rfl (hw _ (by simp) c)
      | write data => simp [stepWriter, hs]
    exact ih (stepWriter w e) (fun e he c => hw e (by simp [he]) c) hstep

/-- C9: when the wrapped handler writes response body data without ever
explicitly setting a status code, the status the access-log stage captures
and logs is 200 (`http.StatusOK`). -/
theorem c9_default_status (evs : List WriterEvent)
    (hw : ∀ e ∈ evs, ∀ c : Nat, e ≠ WriterEvent.writeHeader c)
    (hne : evs ≠ []) :
    (runWriter evs).status = 200 := by
  match evs, hne with
  | e :: rest, _ =>
    have hfirst : (stepWriter { status := 0 } e).status = 200 := by
      cases e with
      | writeHeader c => exact absurd rfl (hw _ (by simp) c)
      | write data => rfl
    exact runWriter_stays_200 rest (stepWriter { status := 0 } e)
      (fun e he c => hw e (by simp [he]) c) hfirst

/-- C9 witness. -/
theorem c9_default_status_witness :
    (runWriter [WriterEvent.write ("hello")]).status = 200 :=
  c9_default_status [WriterEvent.write ("hello")]
    (by
      intro e he c
      simp only [List.mem_singleton] at he
      subst he
      simp)
    (by simp)

/-- C10: a non-zero `maxTimeout` never creates a deadline by itself — with no
context deadline, no parseable header value, and a zero default, the server
stage delegates the request unmodified; and with no context deadline and a
zero default the client stage adds no header — whatever `maxTimeout` is. -/
theorem c10_max_alone (cfg : Config) (now : Int) (r : Request) :
    ((r.ctxDeadline = none
        ∧ timeParse (headerGet r.headers cfg.headerName) = none
        ∧ cfg.defaultTimeout = 0) →
      serveHTTP cfg now r = r)
    ∧ ((r.ctxDeadline = none ∧ cfg.defaultTimeout = 0) →
      roundTripRequest cfg now r = r) := by
  constructor
  · rintro ⟨hctx, hbad, hdt⟩
    have hhd : headerDeadline cfg r = 0 := by
      unfold headerDeadline
      by_cases h : headerGet r.headers cfg.headerName = "" <;> simp [h, hbad]
    simp [serveHTTP, hctx, hhd, hdt]
  · rintro ⟨hctx, hdt⟩
    simp [roundTripRequest, hctx, hdt]

/-- C10 witness (with a non-zero `maxTimeout`). -/
theorem c10_max_alone_witness :
    serveHTTP cfgOnlyMax 100 reqBadHeader = reqBadHeader
    ∧ roundTripRequest cfgOnlyMax 100 { ctxDeadline := none, headers := [] }
      = { ctxDeadline := none, headers := [] } :=
  ⟨(c10_max_alone cfgOnlyMax 100 reqBadHeader).1 ⟨rfl, by decide, rfl⟩,
    (c10_max_alone cfgOnlyMax 100 _).2 ⟨rfl, rfl⟩⟩

/-- The clamp step of both stages, as Go writes it, is a minimum. -/
theorem ite_gt_min (a b : Int) : (if a > b then b else a) = min a b := by
  rw [min_def]
  by_cases h : a ≤ b
  · rw [if_neg (by omega), if_pos h]
  · rw [if_pos (by omega), if_neg h]

theorem headerDeadline_eq_zero (cfg : Config) (r : Request)
    (hbad : timeParse (headerGet r.headers cfg.headerName) = none) :
    headerDeadline cfg r = 0 := by
  unfold headerDeadline
  by_cases h : headerGet r.headers cfg.headerName = "" <;> simp [h, hbad]

theorem timeParse_empty : timeParse ("") = none := rfl

/-- C1: on a request whose context has no deadline, when a candidate deadline
was determined — a non-zero instant parsed from the inbound header value, or
`now + defaultTimeout` (non-zero) when the header yields nothing and the
default is configured non-zero — and `maxTimeout` is non-zero, the server
stage installs exactly `min(candidate, now + maxTimeout)`, with the same
single `now` sample used for the default and for the clamp. -/
theorem c1_server_clamp (cfg : Config) (now : Int) (r : Request) (c : Int)
    (hctx : r.ctxDeadline = none)
    (hcand : (timeParse (headerGet r.headers cfg.headerName) = some c ∧ c ≠ 0)
      ∨ (headerDeadline cfg r = 0 ∧ cfg.defaultTimeout ≠ 0
          ∧ c = now + cfg.defaultTimeout ∧ c ≠ 0))
    (hmax : cfg.maxTimeout ≠ 0) :
    (serveHTTP cfg now r).ctxDeadline
      = some (min c (now + cfg.maxTimeout)) := by
  rcases hcand with ⟨hparse, hc0⟩ | ⟨hhd0, hdt, hceq, hc0⟩
  · have hne : headerGet r.headers cfg.headerName ≠ "" := by
      intro h
      rw [h, timeParse_empty] at hparse
      cases hparse
    have hhd : headerDeadline cfg r = c := by
      unfold headerDeadline
      simp [hne, hparse]
    have hcond1 : ¬(c = 0 ∧ cfg.defaultTimeout ≠ 0) := fun h => hc0 h.1
    simp only [serveHTTP, hctx, ite_gt_min]
    simp [hhd, hcond1, hc0, hmax]
  · subst hceq
    simp only [serveHTTP, hctx, ite_gt_min]
    simp [hhd0, hdt, hc0, hmax]

/-- C1 witness: header ten seconds out, `maxTimeout` five seconds. -/
theorem c1_server_clamp_witness :
    (serveHTTP cfgOnlyMax 64029052800000000000
        { ctxDeadline := none,
          headers := [(("Deadline" : String), ("2030-01-01T00:00:10Z" : String))] }).ctxDeadline
      = some (min 64029052810000000000
          (64029052800000000000 + cfgOnlyMax.maxTimeout)) :=
  c1_server_clamp cfgOnlyMax 64029052800000000000 _ 64029052810000000000
    rfl (Or.inl ⟨by decide, by decide⟩) (by decide)

/-- C5: a present-but-unparseable header value behaves exactly as an absent
header — the model raises no error (it is total), the installed context
deadline coincides with that of a request carrying no headers at all, and
resolution falls through to the default: no deadline (request unmodified)
when `defaultTimeout` is zero, else `now + defaultTimeout` clamped to
`now + maxTimeout` when a max is set. -/
theorem c5_unparseable_as_absent (cfg : Config) (now : Int) (r : Request)
    (hctx : r.ctxDeadline = none)
    (hbad : timeParse (headerGet r.headers cfg.headerName) = none)
    (hnow : 0 < now) (hdt : 0 ≤ cfg.defaultTimeout) :
    (serveHTTP cfg now r).ctxDeadline
        = (serveHTTP cfg now { ctxDeadline := none, headers := [] }).ctxDeadline
      ∧ (cfg.defaultTimeout = 0 → serveHTTP cfg now r = r)
      ∧ (cfg.defaultTimeout ≠ 0 →
          (serveHTTP cfg now r).ctxDeadline
            = some (if cfg.maxTimeout ≠ 0 then
                  min (now + cfg.defaultTimeout) (now + cfg.maxTimeout)
                else now + cfg.defaultTimeout)) := by
  have hhd : headerDeadline cfg r = 0 := headerDeadline_eq_zero cfg r hbad
  have hhd2 : headerDeadline cfg { ctxDeadline := none, headers := [] } = 0 :=
    headerDeadline_eq_zero cfg _ timeParse_empty
  refine ⟨?_, ?_, ?_⟩
  · simp only [serveHTTP, hctx, hhd, hhd2]
    by_cases h : cfg.defaultTimeout = 0
    · simp [h, hctx]
    · by_cases h2 : now + cfg.defaultTimeout = 0
      · simp [h, h2, hctx]
      · simp [h, h2, hctx]
  · intro h0
    simp [serveHTTP, hctx, hhd, h0]
  · intro hne
    have hnz : now + cfg.defaultTimeout ≠ 0 := by omega
    simp only [serveHTTP, hctx, hhd, ite_gt_min]
    by_cases hm : cfg.maxTimeout = 0
    · simp [hne, hnz, hm]
    · simp [hne, hnz, hm]

/-- C5 witness (also the spec scenario: default 3s, max 1s — the max wins). -/
theorem c5_unparseable_as_absent_witness :
    ((serveHTTP cfgDef3Max1 1000 reqBadHeader).ctxDeadline
        = (serveHTTP cfgDef3Max1 1000
            { ctxDeadline := none, headers := [] }).ctxDeadline
      ∧ (cfgDef3Max1.defaultTimeout = 0 →
          serveHTTP cfgDef3Max1 1000 reqBadHeader = reqBadHeader)
      ∧ (cfgDef3Max1.defaultTimeout ≠ 0 →
          (serveHTTP cfgDef3Max1 1000 reqBadHeader).ctxDeadline
            = some (if cfgDef3Max1.maxTimeout ≠ 0 then
                  min (1000 + cfgDef3Max1.defaultTimeout)
                    (1000 + cfgDef3Max1.maxTimeout)
                else 1000 + cfgDef3Max1.defaultTimeout))) :=
  c5_unparseable_as_absent cfgDef3Max1 1000 reqBadHeader rfl (by decide)
    (by decide) (by decide)

/-- C7: the candidate priority of the client stage — a (non-zero) context deadline
is the candidate even when a default is configured; `now + defaultTimeout` is
the candidate only when the context has no deadline and the default is
non-zero; and with neither source the request is delegated unmodified, no
header added. -/
theorem c7_client_priority (cfg : Config) (now : Int) (r : Request)
    (dl : Int) :
    ((r.ctxDeadline = some dl ∧ dl ≠ 0) →
      (roundTripRequest cfg now r).headers
        = headerAdd r.headers cfg.headerName
            (timeFormat (if cfg.maxTimeout ≠ 0 then
              min dl (now + cfg.maxTimeout) else dl)))
    ∧ ((r.ctxDeadline = none ∧ cfg.defaultTimeout ≠ 0
        ∧ now + cfg.defaultTimeout ≠ 0) →
      (roundTripRequest cfg now r).headers
        = headerAdd r.headers cfg.headerName
            (timeFormat (if cfg.maxTimeout ≠ 0 then
              min (now + cfg.defaultTimeout) (now + cfg.maxTimeout)
              else now + cfg.defaultTimeout)))
    ∧ ((r.ctxDeadline = none ∧ cfg.defaultTimeout = 0) →
      roundTripRequest cfg now r = r) := by
  refine ⟨?_, ?_, ?_⟩
  · rintro ⟨hsome, hnz⟩
    simp only [roundTripRequest, hsome, ite_gt_min]
    by_cases hm : cfg.maxTimeout = 0 <;> simp [hnz, hm]
  · rintro ⟨hnone, hdt, hnz⟩
    simp only [roundTripRequest, hnone, ite_gt_min]
    by_cases hm : cfg.maxTimeout = 0 <;> simp [hdt, hnz, hm]
  · rintro ⟨hnone, hdt⟩
    simp [roundTripRequest, hnone, hdt]

/-- C7 witness: a context deadline wins although a default is configured. -/
theorem c7_client_priority_witness :
    (roundTripRequest cfgOnlyDefault 5
        { ctxDeadline := some 64029052810000000000, headers := [] }).headers
      = headerAdd [] cfgOnlyDefault.headerName
          (timeFormat 64029052810000000000) := by
  have h := (c7_client_priority cfgOnlyDefault 5
    { ctxDeadline := some 64029052810000000000, headers := [] }
    64029052810000000000).1 ⟨rfl, by decide⟩
  simpa using h

/-- C8: when the client stage has a (non-zero) candidate and `maxTimeout` is
non-zero, it writes `min(candidate, now + maxTimeout)` — serialized with the
shared nanosecond-precision format — into the header named `headerName`. -/
theorem c8_client_clamp (cfg : Config) (now : Int) (r : Request) (c : Int)
    (hcand : r.ctxDeadline = some c
      ∨ (r.ctxDeadline = none ∧ cfg.defaultTimeout ≠ 0
          ∧ c = now + cfg.defaultTimeout))
    (hc : c ≠ 0) (hmax : cfg.maxTimeout ≠ 0) :
    (roundTripRequest cfg now r).headers
      = headerAdd r.headers cfg.headerName
          (timeFormat (min c (now + cfg.maxTimeout))) := by
  rcases hcand with hsome | ⟨hnone, hdt, hceq⟩
  · simp only [roundTripRequest, hsome, ite_gt_min]
    simp [hc, hmax]
  · subst hceq
    simp only [roundTripRequest, hnone, ite_gt_min]
    simp [hdt, hc, hmax]

/-- C8 witness (the spec scenario): context deadline 10s out, max 2s — the
outgoing header encodes `now + 2s`. -/
theorem c8_client_clamp_witness :
    (roundTripRequest cfgMax2 64029052800000000000
        { ctxDeadline := some 64029052810000000000, headers := [] }).headers
      = headerAdd [] cfgMax2.headerName (timeFormat 64029052802000000000) := by
  have h := c8_client_clamp cfgMax2 64029052800000000000
    { ctxDeadline := some 64029052810000000000, headers := [] }
    64029052810000000000 (Or.inl rfl) (by decide) (by decide)
  rw [h]
  rw [show (min 64029052810000000000
    (64029052800000000000 + cfgMax2.maxTimeout) : Int)
      = 64029052802000000000 from by decide]

theorem timeFormat_ne_empty (t : Int) : timeFormat t ≠ "" := by
  unfold timeFormat
  intro h
  have h2 : formatChars t.toNat = ([] : List Char) := congrArg String.toList h
  simp only [formatChars] at h2
  simp at h2

/-- C3 (counterexample): a valid second-precision RFC 3339 header value
(no fractional seconds) is NOT treated as absent by the server stage — with
no default and no max configured it installs the parsed deadline
(2030-01-01T00:00:00Z, i.e. instant 64029052800000000000), while an absent
header installs none. -/
theorem c3_counterexample :
    (serveHTTP newConfig 0 req2030sec).ctxDeadline = some 64029052800000000000
      ∧ (serveHTTP newConfig 0 reqEmpty).ctxDeadline = none := by
  constructor <;> rfl

/-- C3 (amended): the server stage accepts second-precision RFC 3339 values —
the Go `RFC3339Nano` parsing treats fractional seconds as optional — and (with
no default or max configured) installs the parsed instant: for any
whole-second instant `t` in the range of the format, a header carrying the
second-precision rendering of `t` leads to `t` being installed. -/
theorem c3_amended (t : Int) (now : Int) (r : Request) (h0 : 0 ≤ t)
    (hub : t < 315537897600000000000) (_hsec : t % 1000000000 = 0)
    (hnz : t ≠ 0) (hctx : r.ctxDeadline = none)
    (hhdr : headerGet r.headers DefaultHeaderName = timeFormat t) :
    (serveHTTP newConfig now r).ctxDeadline = some t := by
  have hrt : timeParse (timeFormat t) = some t := timeParse_timeFormat t h0 hub
  have hne : timeFormat t ≠ "" := timeFormat_ne_empty t
  have hhd : headerDeadline newConfig r = t := by
    unfold headerDeadline
    simp [newConfig, hhdr, hne, hrt]
  simp only [newConfig] at hhd
  simp [serveHTTP, hctx, newConfig, hhd, hnz]

/-- C3 (amended) witness. -/
theorem c3_amended_witness :
    (serveHTTP newConfig 0 req2030sec).ctxDeadline
      = some 64029052800000000000 :=
  c3_amended 64029052800000000000 0 req2030sec (by decide) (by decide)
    (by decide) (by decide) rfl (by decide)

/-- C6: round trip of the shared wire format — a deadline serialized with the
formatter of the client stage (`RFC3339Nano`, nanosecond precision) and parsed
with the parser of the server stage is recovered exactly, for every instant the
four-digit-year RFC 3339 format covers (years 1–9999). -/
theorem c6_roundtrip (t : Int) (h0 : 0 ≤ t)
    (hub : t < 315537897600000000000) :
    timeParse (timeFormat t) = some t :=
  timeParse_timeFormat t h0 hub

/-- C6 witness, at an instant with a full nanosecond fraction. -/
theorem c6_roundtrip_witness :
    timeParse (timeFormat 64029052800123456789) = some 64029052800123456789 :=
  c6_roundtrip 64029052800123456789 (by decide) (by decide)


end Middleware
